import Mathlib

/-!
# txpool-viz: the transaction poller and the type-name functions

A shallow embedding of

* `internal/model/types.go`: `TransactionType.String` and `Tx.String`;
* `internal/transactions/model.go`: `TransactionType`, `TransactionMetadata`,
  `StoredTransaction`;
* `internal/transactions/transactions.go`: `processTransactionBatch`,
  `getTransactions` and the goroutine body of `PollTransactions`.

Conventions of the embedding.

* A Go pointer that may be nil is an `Option`; calling a method that reads through a nil
  `*types.Transaction` is a run-time panic, which the embedding keeps as `Run.panic`.
* A Go map is the list of its entries in the order in which `range` visits them. Go leaves
  that order unspecified, so every statement below is made for an arbitrary order.
* Effects are explicit: the world carries the storage behind `StoreTransaction`, the number
  of clock reads, the trace of `StoreTransaction` calls, the lines printed and the log.
* `Storage.StoreTransaction`, the clock and the outcome of the HTTP round trip are not part
  of these files; they are parameters (`Env`, `Cycle`).
-/

namespace TxpoolViz

/-! ## internal/model/types.go -/

namespace model

/-- The declaration `type TransactionType int`. -/
abbrev TransactionType := Int

def LegacyTxType : TransactionType := 0
def AccessListTxType : TransactionType := 1
def DynamicFeeTxType : TransactionType := 2
def BlobTxType : TransactionType := 3
def SetCodeTxType : TransactionType := 4

/-- The function `func (t TransactionType) String() string`. -/
def TransactionType.String (t : TransactionType) : String :=
  if t = LegacyTxType then "LegacyTxType"
  else if t = AccessListTxType then "AccessListTxType"
  else if t = DynamicFeeTxType then "DynamicFeeTxType"
  else if t = BlobTxType then "BlobTxType"
  else if t = SetCodeTxType then "SetCodeTxType"
  else "unknown"

/-- The declaration `type Tx struct`. `Type` is a `uint8`, kept as a natural number;
`GasPrice` is a `*big.Int`. -/
structure Tx where
  ChainID : String
  From : String
  To : String
  IsContractCreation : Bool
  Nonce : Nat
  Value : String
  Gas : Nat
  GasPrice : Option Int
  MaxFeePerGas : String
  MaxPriorityFee : String
  MaxFeePerBlobGas : String
  Data : String
  Type_ : Nat

/-- The function `func (t Tx) String() string`. -/
def Tx.String (t : Tx) : String :=
  match t.Type_ with
  | 0 => "LegacyTxType"
  | 1 => "AccessListTxType"
  | 2 => "DynamicFeeTxType"
  | 3 => "BlobTxType"
  | 4 => "SetCodeTxType"
  | _ => "unknown"

/-- The conversion `TransactionType(t.Type)` from `uint8` to `int`. -/
def TransactionType.ofUint8 (b : Nat) : TransactionType := Int.ofNat b

end model

/-! ## go-ethereum values the poller reads -/

namespace common

/-- A `common.Address`, kept as the text its `String` method renders. -/
structure Address where
  hex : String
  deriving DecidableEq, Repr

/-- The function `func (a Address) String() string`. -/
def Address.String (a : Address) : String := a.hex

end common

namespace types

/-- Transaction type tags of go-ethereum (`core/types`). -/
def LegacyTxType : Nat := 0
def AccessListTxType : Nat := 1
def DynamicFeeTxType : Nat := 2
def BlobTxType : Nat := 3
def SetCodeTxType : Nat := 4

/-- A non-nil `types.Transaction`, given by what the accessors used in
`processTransactionBatch` return: `Type()` (a `uint8`), `Nonce()`, `GasPrice()` (never
nil) and `To()` (nil for a contract creation). -/
structure Transaction where
  Type_ : Nat
  Nonce : Nat
  GasPrice : Int
  To : Option common.Address
  deriving DecidableEq, Repr

end types

/-! ## config/config.go -/

namespace config

/-- The declaration `type Endpoint struct`. -/
structure Endpoint where
  Name : String
  Url : String
  AuthHeaders : List (String × String)
  deriving DecidableEq, Repr

/-- The declaration `type Config struct`; durations are in nanoseconds. -/
structure Config where
  Endpoints : List Endpoint
  Polling : List (String × Int)
  Filters : List (String × String)
  deriving DecidableEq, Repr

/-- Indexing `cfg.Polling[key]`: the zero duration when the key is missing. -/
def Config.polling (cfg : Config) (key : String) : Int :=
  match cfg.Polling.find? (fun kv => kv.1 == key) with
  | some kv => kv.2
  | none => 0

end config

/-! ## internal/transactions/model.go -/

namespace transactions

/-- The declaration `type TransactionType int`. -/
abbrev TransactionType := Int

def LegacyTx : TransactionType := 0
def EIP1559Tx : TransactionType := 1
def BlobTx : TransactionType := 2
def EIP7702Tx : TransactionType := 3

/-- The declaration `type TransactionMetadata struct`; a nil `*big.Int` is `none`. -/
structure TransactionMetadata where
  Type_ : TransactionType
  GasPrice : Option Int
  MaxFeePerGas : Option Int
  MaxPriorityFee : Option Int
  MaxFeePerBlobGas : Option Int
  Nonce : Nat
  From : String
  To : String
  IsContract : Bool
  Timestamp : Int
  deriving DecidableEq, Repr

/-- The declaration `type StoredTransaction struct`. Where one is built the transaction pointer has
already been read through, so it is not nil. -/
structure StoredTransaction where
  Tx : types.Transaction
  Metadata : TransactionMetadata
  deriving DecidableEq, Repr

/-! ## internal/transactions/transactions.go -/

/-- The declaration `type Result struct`: the two buckets, address to nonce to transaction pointer. -/
abbrev TxMap := List (String × List (String × Option types.Transaction))

structure Result where
  Pending : TxMap
  Queued : TxMap
  deriving DecidableEq, Repr

/-- The declaration `type RPCResponse struct`. -/
structure RPCResponse where
  JSONRPC : String
  ID : Int
  Result : Result
  deriving DecidableEq, Repr

/-- A `context.Context`, as far as the poller shapes it: the timeouts it was derived with,
innermost first. -/
structure Context where
  timeouts : List Int
  deriving DecidableEq, Repr

/-- The derivation `context.WithTimeout(ctx, d)`. -/
def Context.WithTimeout (ctx : Context) (d : Int) : Context :=
  { timeouts := d :: ctx.timeouts }

/-- One call `storage.StoreTransaction(ctx, storedTx, listName)` with its arguments. -/
structure StoreCall where
  ctx : Context
  storedTx : StoredTransaction
  listName : String
  deriving DecidableEq, Repr

/-- One call of the logger: level, message and fields. -/
structure LogEntry where
  level : String
  msg : String
  fields : List (String × String)
  deriving DecidableEq, Repr

/-- The collaborators of the poller that are not in these files: the storage behind
`StoreTransaction` (its state is `σ`, its result the returned error, if any) and the
clock (`now k` is the value of the `k`-th `time.Now().Unix()`). -/
structure Env (σ : Type) where
  StoreTransaction : σ → StoreCall → σ × Option String
  now : Nat → Int

/-- The state the poller acts on. -/
structure World (σ : Type) where
  storage : σ
  clock : Nat
  calls : List StoreCall
  stdout : List String
  log : List LogEntry

/-- How a piece of code ends: it returns, or it panics (nil pointer dereference). -/
inductive Run (α : Type) where
  | done (w : α)
  | panic (w : α)

/-- The world at the end of a run, however it ended. -/
def Run.world {α : Type} : Run α → α
  | .done w => w
  | .panic w => w

/-- Whether the run ended in a panic. -/
def Run.panicked {α : Type} : Run α → Bool
  | .done _ => false
  | .panic _ => true

/-- Lines 124-150 of `processTransactionBatch`: the metadata of one record. -/
def buildMetadata (address : String) (tx : types.Transaction) (now : Int) :
    TransactionMetadata :=
  let metadata : TransactionMetadata :=
    { Type_ := 0, GasPrice := none, MaxFeePerGas := none, MaxPriorityFee := none,
      MaxFeePerBlobGas := none,
      Nonce := tx.Nonce,
      From := address,
      IsContract := false,
      Timestamp := now,
      To := "" }
  let metadata :=
    match tx.To with
    | some to_ => { metadata with To := to_.String }
    | none => { metadata with To := "" }
  if tx.Type_ = types.BlobTxType then
    { metadata with Type_ := BlobTx }
  else if tx.Type_ = types.DynamicFeeTxType then
    { metadata with Type_ := EIP1559Tx }
  else
    { metadata with Type_ := LegacyTx, GasPrice := some tx.GasPrice }

/-- The body of the inner loop of `processTransactionBatch` for one `(nonce, tx)` entry of
`address`. `tx.Nonce()` is the first thing evaluated; on a nil pointer it panics. -/
def processRecord {σ : Type} (env : Env σ) (ctx : Context) (listName : String)
    (address nonce : String) (tx : Option types.Transaction) (w : World σ) :
    Run (World σ) :=
  match tx with
  | none => .panic w
  | some tx =>
    let metadata := buildMetadata address tx (env.now w.clock)
    let storedTx : StoredTransaction := { Tx := tx, Metadata := metadata }
    let call : StoreCall := { ctx := ctx, storedTx := storedTx, listName := listName }
    let (storage, err) := env.StoreTransaction w.storage call
    let w := { w with storage := storage, clock := w.clock + 1, calls := w.calls ++ [call] }
    match err with
    | some e =>
      .done { w with stdout := w.stdout ++
        ["Error storing TX (address: " ++ address ++ ", nonce: " ++ nonce ++ "): " ++ e ++ "\n"] }
    | none => .done w

/-- The inner loop `for nonce, tx := range txs`. -/
def processAddress {σ : Type} (env : Env σ) (ctx : Context) (listName : String)
    (address : String) : List (String × Option types.Transaction) → World σ → Run (World σ)
  | [], w => .done w
  | (nonce, tx) :: rest, w =>
    match processRecord env ctx listName address nonce tx w with
    | .done w => processAddress env ctx listName address rest w
    | .panic w => .panic w

/-- The function `func processTransactionBatch(ctx, storage, listName, transactions)`: the outer loop
`for address, txs := range transactions`. -/
def processTransactionBatch {σ : Type} (env : Env σ) (ctx : Context) (listName : String) :
    TxMap → World σ → Run (World σ)
  | [], w => .done w
  | (address, txs) :: rest, w =>
    match processAddress env ctx listName address txs w with
    | .done w => processTransactionBatch env ctx listName rest w
    | .panic w => .panic w

/-- What the outside answers during one poll cycle: the errors (if any) of `json.Marshal`,
`http.NewRequestWithContext`, `client.Do`, `io.ReadAll`, whether `ctx.Err()` is set when
`client.Do` fails, and the result of `json.Unmarshal` on the body. -/
structure Cycle where
  marshal : Option String
  newRequest : Option String
  send : Option String
  ctxErr : Option String
  readAll : Option String
  unmarshal : Except String RPCResponse

/-- Append one logger call to the world. -/
def World.logged {σ : Type} (w : World σ) (level msg : String)
    (fields : List (String × String)) : World σ :=
  { w with log := w.log ++ [{ level := level, msg := msg, fields := fields }] }

/-- The function `func getTransactions(ctx, endpoint, storage, l)`. -/
def getTransactions {σ : Type} (env : Env σ) (cyc : Cycle) (ctx : Context)
    (endpoint : config.Endpoint) (w : World σ) : Run (World σ) :=
  let w := w.logged "info" "Polling transactions" [("endpoint", endpoint.Name)]
  match cyc.marshal with
  | some err => .done (w.logged "error" "Error marshalling request data" [("error", err)])
  | none =>
  match cyc.newRequest with
  | some err => .done (w.logged "error" "Error creating request" [("error", err)])
  | none =>
  match cyc.send with
  | some err =>
    match cyc.ctxErr with
    | some cerr =>
      .done (w.logged "error" "Request cancelled" [("endpoint", endpoint.Name), ("error", cerr)])
    | none => .done (w.logged "error" "Error sending request" [("error", err)])
  | none =>
  match cyc.readAll with
  | some err => .done (w.logged "error" "Error reading response" [("error", err)])
  | none =>
  match cyc.unmarshal with
  | .error err => .done (w.logged "error" "Error unmarshalling response data" [("error", err)])
  | .ok rpcResponse =>
  match processTransactionBatch env ctx "pending" rpcResponse.Result.Pending w with
  | .panic w => .panic w
  | .done w =>
  match processTransactionBatch env ctx "queued" rpcResponse.Result.Queued w with
  | .panic w => .panic w
  | .done w =>
    .done (w.logged "info"
      ("Processed " ++ toString rpcResponse.Result.Pending.length ++ " pending txs, " ++
        toString rpcResponse.Result.Queued.length ++ " queued txs")
      [("endpoint", endpoint.Name)])

/-- The two cases of the `select` in the loop of `PollTransactions`. -/
inductive Branch where
  | ctxDone
  | tickerC
  deriving DecidableEq, Repr

/-- What one pass through the `select` meets: whether `ctx.Done()` is closed (the governing
context is cancelled), whether a tick waits on `ticker.C`, which case the run time picks
when both can proceed (`pickDone`), and what the outside answers if a cycle is run. -/
structure Select where
  cancelled : Bool
  tick : Bool
  pickDone : Bool
  cycle : Cycle

/-- The `select` statement: a case that can proceed is taken; when both can, the run time
chooses; when none can, the goroutine stays blocked. -/
def Select.branch (s : Select) : Option Branch :=
  if s.cancelled && s.tick then
    some (if s.pickDone then Branch.ctxDone else Branch.tickerC)
  else if s.cancelled then some Branch.ctxDone
  else if s.tick then some Branch.tickerC
  else none

/-- Where the goroutine of one endpoint stands. -/
inductive Status where
  | running
  | returned
  | panicked
  deriving DecidableEq, Repr

/-- The goroutine of one endpoint: its status, whether `ticker.Stop()` has run, how many
poll cycles (calls of `getTransactions`) it has started, and the world. -/
structure Poller (σ : Type) where
  status : Status
  tickerStopped : Bool
  cycles : Nat
  world : World σ

/-- The start of the goroutine body in `PollTransactions`: `time.NewTicker` (which panics
on a non-positive interval, before the deferred `Stop` is registered) and the first log
line. -/
def Poller.start {σ : Type} (cfg : config.Config) (endpoint : config.Endpoint)
    (w : World σ) : Poller σ :=
  if cfg.polling "interval" ≤ 0 then
    { status := Status.panicked, tickerStopped := false, cycles := 0, world := w }
  else
    { status := Status.running, tickerStopped := false, cycles := 0,
      world := w.logged "info" "Polling started for:" [("", endpoint.Name)] }

/-- One pass through `for { select { ... } }` in `PollTransactions`. The deferred
`ticker.Stop()` runs when the function returns and when a panic unwinds it. -/
def Poller.step {σ : Type} (env : Env σ) (cfg : config.Config) (ctx : Context)
    (endpoint : config.Endpoint) (p : Poller σ) (s : Select) : Poller σ :=
  match p.status with
  | Status.returned => p
  | Status.panicked => p
  | Status.running =>
    match s.branch with
    | none => p
    | some Branch.ctxDone =>
      { p with
        status := Status.returned
        tickerStopped := true
        world := p.world.logged "info" "Shutting down PollTransactions for" [("", endpoint.Name)] }
    | some Branch.tickerC =>
      let pollCtx := ctx.WithTimeout (cfg.polling "timeout")
      match getTransactions env s.cycle pollCtx endpoint p.world with
      | .done w => { p with cycles := p.cycles + 1, world := w }
      | .panic w =>
        { status := Status.panicked, tickerStopped := true, cycles := p.cycles + 1, world := w }

/-- The loop of `PollTransactions` over a sequence of passes. -/
def Poller.run {σ : Type} (env : Env σ) (cfg : config.Config) (ctx : Context)
    (endpoint : config.Endpoint) (p : Poller σ) (steps : List Select) : Poller σ :=
  steps.foldl (Poller.step env cfg ctx endpoint) p

/-! ## Vocabulary of the statements -/

/-- The `(address, nonce, tx)` entries of a bucket, in the order in which the two nested
`range` loops visit them. -/
def entries : TxMap → List (String × String × Option types.Transaction)
  | [] => []
  | (address, txs) :: rest => txs.map (fun q => (address, q.1, q.2)) ++ entries rest

/-- The `StoreTransaction` calls a run has added to the trace of the world `w` it started
from. -/
def issued {σ : Type} (w : World σ) (r : Run (World σ)) : List StoreCall :=
  r.world.calls.drop w.calls.length

/-- The call `c` stores the entry `e` under the list name `listName` with the context
`ctx`: the entry carries a transaction, the call stores that transaction, and the metadata
has the address key as `From` and the nonce of the transaction as `Nonce`. -/
def StoresEntry (ctx : Context) (listName : String)
    (e : String × String × Option types.Transaction) (c : StoreCall) : Prop :=
  c.ctx = ctx ∧ c.listName = listName ∧ e.2.2 = some c.storedTx.Tx ∧
    c.storedTx.Metadata.From = e.1 ∧ c.storedTx.Metadata.Nonce = c.storedTx.Tx.Nonce

/-- A cycle fails: the request cannot be built, it cannot be sent (network error or
timeout), the body cannot be read, or the response does not decode. -/
def Cycle.fails (cyc : Cycle) : Bool :=
  cyc.marshal.isSome || cyc.newRequest.isSome || cyc.send.isSome || cyc.readAll.isSome ||
    (match cyc.unmarshal with
     | .error _ => true
     | .ok _ => false)

/-- The response of a cycle in which every step up to the decoding succeeds. -/
def Cycle.decoded (cyc : Cycle) : Option RPCResponse :=
  if cyc.marshal.isSome || cyc.newRequest.isSome || cyc.send.isSome || cyc.readAll.isSome then
    none
  else
    match cyc.unmarshal with
    | .error _ => none
    | .ok r => some r

/-- The world with its log replaced. -/
def World.withLog {σ : Type} (w : World σ) (l : List LogEntry) : World σ :=
  { w with log := l }

/-- Apply a function to the world a run ends in. -/
def Run.map {α β : Type} (f : α → β) : Run α → Run β
  | .done w => .done (f w)
  | .panic w => .panic (f w)

/-- The call that `processTransactionBatch` makes for the transaction `tx` found under
`address` when the clock has been read `k` times. -/
def recordCall {σ : Type} (env : Env σ) (ctx : Context) (listName address : String)
    (tx : types.Transaction) (k : Nat) : StoreCall :=
  { ctx := ctx, storedTx := { Tx := tx, Metadata := buildMetadata address tx (env.now k) },
    listName := listName }

/-- The calls that the entries `es` lead to, from clock `k`: one per entry, up to the first
entry whose transaction pointer is nil. -/
def expectedCalls {σ : Type} (env : Env σ) (ctx : Context) (listName : String) :
    List (String × String × Option types.Transaction) → Nat → List StoreCall
  | [], _ => []
  | (_, _, none) :: _, _ => []
  | (address, _, some tx) :: rest, k =>
    recordCall env ctx listName address tx k :: expectedCalls env ctx listName rest (k + 1)

/-- Whether some entry has a nil transaction pointer. -/
def hasNil (es : List (String × String × Option types.Transaction)) : Bool :=
  es.any (fun e => e.2.2.isNone)

/-! ## Concrete inputs -/

/-- A legacy transfer. -/
def txLegacy : types.Transaction :=
  { Type_ := 0, Nonce := 7, GasPrice := 100,
    To := some { hex := "0x0000000000000000000000000000000000000011" } }

/-- A dynamic-fee (EIP-1559) transfer. -/
def txDynamic : types.Transaction :=
  { Type_ := 2, Nonce := 3, GasPrice := 50,
    To := some { hex := "0x0000000000000000000000000000000000000022" } }

/-- A blob transaction. -/
def txBlob : types.Transaction :=
  { Type_ := 3, Nonce := 4, GasPrice := 60,
    To := some { hex := "0x0000000000000000000000000000000000000033" } }

/-- A contract creation: no recipient. -/
def txCreate : types.Transaction :=
  { Type_ := 0, Nonce := 0, GasPrice := 10, To := none }

/-- A set-code transaction, a tag the switch has no case for. -/
def txSetCode : types.Transaction :=
  { Type_ := 4, Nonce := 1, GasPrice := 20,
    To := some { hex := "0x0000000000000000000000000000000000000044" } }

/-- A storage that keeps what it is given and never fails, and a clock that advances by
one second per read. -/
def envOk : Env (List StoreCall) :=
  { StoreTransaction := fun st c => (st ++ [c], none), now := fun k => 1700000000 + k }

/-- A storage that refuses every write. -/
def envErr : Env (List StoreCall) :=
  { StoreTransaction := fun st _ => (st, some "connection refused"),
    now := fun k => 1700000000 + k }

def world0 : World (List StoreCall) :=
  { storage := [], clock := 0, calls := [], stdout := [], log := [] }

def ctx0 : Context := { timeouts := [] }

def geth : config.Endpoint := { Name := "geth", Url := "http://10.0.0.1:8545", AuthHeaders := [] }

def reth : config.Endpoint := { Name := "reth", Url := "http://10.0.0.2:8545", AuthHeaders := [] }

def cfg0 : config.Config :=
  { Endpoints := [geth, reth],
    Polling := [("interval", 1000000000), ("timeout", 5000000000)],
    Filters := [] }

/-- A cycle in which the node answers `r`. -/
def cycleOk (r : Result) : Cycle :=
  { marshal := none, newRequest := none, send := none, ctxErr := none, readAll := none,
    unmarshal := .ok { JSONRPC := "2.0", ID := 1, Result := r } }

/-- A cycle in which the request is not answered because the context is done. -/
def cycleCancelled : Cycle :=
  { marshal := none, newRequest := none, send := some "context canceled",
    ctxErr := some "context canceled", readAll := none, unmarshal := .error "" }

/-- A cycle whose body is not JSON. -/
def cycleGarbled : Cycle :=
  { marshal := none, newRequest := none, send := none, ctxErr := none, readAll := none,
    unmarshal := .error "invalid character" }

/-- One pending and one queued transaction. -/
def resultTwo : Result :=
  { Pending := [("0xA1", [("7", some txLegacy)])], Queued := [("0xB2", [("3", some txDynamic)])] }

/-- A pending bucket whose only entry is `null`, and a valid queued transaction. -/
def resultNull : Result :=
  { Pending := [("0xA1", [("7", none)])], Queued := [("0xB2", [("3", some txDynamic)])] }

/-- A poller of `geth` in its loop. -/
def poller0 : Poller (List StoreCall) := Poller.start cfg0 geth world0

/-- The context is cancelled and a tick is waiting; the run time picks the tick. -/
def selectLateTick : Select :=
  { cancelled := true, tick := true, pickDone := false, cycle := cycleCancelled }

/-- The context is cancelled and no tick is waiting. -/
def selectCancelled : Select :=
  { cancelled := true, tick := false, pickDone := false, cycle := cycleCancelled }

/-- A tick with a garbled answer. -/
def selectGarbled : Select :=
  { cancelled := false, tick := true, pickDone := false, cycle := cycleGarbled }

/-! ## The metadata of one record -/

theorem buildMetadata_From (address : String) (tx : types.Transaction) (now : Int) :
    (buildMetadata address tx now).From = address := by
  cases hto : tx.To <;> simp only [buildMetadata, hto] <;> split_ifs <;> rfl

theorem buildMetadata_Nonce (address : String) (tx : types.Transaction) (now : Int) :
    (buildMetadata address tx now).Nonce = tx.Nonce := by
  cases hto : tx.To <;> simp only [buildMetadata, hto] <;> split_ifs <;> rfl

theorem buildMetadata_Timestamp (address : String) (tx : types.Transaction) (now : Int) :
    (buildMetadata address tx now).Timestamp = now := by
  cases hto : tx.To <;> simp only [buildMetadata, hto] <;> split_ifs <;> rfl

theorem buildMetadata_IsContract (address : String) (tx : types.Transaction) (now : Int) :
    (buildMetadata address tx now).IsContract = false := by
  cases hto : tx.To <;> simp only [buildMetadata, hto] <;> split_ifs <;> rfl

theorem buildMetadata_To (address : String) (tx : types.Transaction) (now : Int) :
    (buildMetadata address tx now).To =
      (match tx.To with
       | some a => a.String
       | none => "") := by
  cases hto : tx.To <;> simp only [buildMetadata, hto] <;> split_ifs <;> rfl

theorem buildMetadata_maxFees (address : String) (tx : types.Transaction) (now : Int) :
    (buildMetadata address tx now).MaxFeePerGas = none ∧
      (buildMetadata address tx now).MaxPriorityFee = none ∧
      (buildMetadata address tx now).MaxFeePerBlobGas = none := by
  cases hto : tx.To <;> simp only [buildMetadata, hto] <;> split_ifs <;> exact ⟨rfl, rfl, rfl⟩

theorem buildMetadata_blob (address : String) (tx : types.Transaction) (now : Int)
    (h : tx.Type_ = types.BlobTxType) :
    (buildMetadata address tx now).Type_ = BlobTx ∧
      (buildMetadata address tx now).GasPrice = none := by
  cases hto : tx.To <;> simp [buildMetadata, hto, h]

theorem buildMetadata_dynamicFee (address : String) (tx : types.Transaction) (now : Int)
    (h : tx.Type_ = types.DynamicFeeTxType) :
    (buildMetadata address tx now).Type_ = EIP1559Tx ∧
      (buildMetadata address tx now).GasPrice = none := by
  have hb : ¬ tx.Type_ = types.BlobTxType := by
    rw [h]; decide
  cases hto : tx.To <;> simp [buildMetadata, hto, hb] <;> simp [h]

theorem buildMetadata_default (address : String) (tx : types.Transaction) (now : Int)
    (hb : tx.Type_ ≠ types.BlobTxType) (hd : tx.Type_ ≠ types.DynamicFeeTxType) :
    (buildMetadata address tx now).Type_ = LegacyTx ∧
      (buildMetadata address tx now).GasPrice = some tx.GasPrice := by
  cases hto : tx.To <;> simp [buildMetadata, hto, hb, hd]

/-! ## The trace of `processTransactionBatch` -/

theorem processRecord_some {σ : Type} (env : Env σ) (ctx : Context) (listName : String)
    (address nonce : String) (tx : types.Transaction) (w : World σ) :
    ∃ w2, processRecord env ctx listName address nonce (some tx) w = .done w2 ∧
      w2.calls = w.calls ++ [recordCall env ctx listName address tx w.clock] ∧
      w2.clock = w.clock + 1 ∧ w2.log = w.log ∧
      w2.storage =
        (env.StoreTransaction w.storage (recordCall env ctx listName address tx w.clock)).1 := by
  unfold processRecord
  simp only [recordCall]
  split <;> simp

theorem processRecord_withLog {σ : Type} (env : Env σ) (ctx : Context) (listName : String)
    (address nonce : String) (tx : Option types.Transaction) (w : World σ)
    (l : List LogEntry) :
    processRecord env ctx listName address nonce tx (w.withLog l) =
      (processRecord env ctx listName address nonce tx w).map (fun v => v.withLog l) := by
  cases tx with
  | none => simp [processRecord, Run.map]
  | some tx =>
    unfold processRecord
    simp only [World.withLog]
    split <;> simp [Run.map]

theorem hasNil_append (L1 L2 : List (String × String × Option types.Transaction)) :
    hasNil (L1 ++ L2) = (hasNil L1 || hasNil L2) := by
  simp [hasNil, List.any_append]

theorem expectedCalls_append {σ : Type} (env : Env σ) (ctx : Context) (listName : String) :
    ∀ (L1 L2 : List (String × String × Option types.Transaction)) (k : Nat),
      expectedCalls env ctx listName (L1 ++ L2) k =
        expectedCalls env ctx listName L1 k ++
          (if hasNil L1 then [] else
            expectedCalls env ctx listName L2 (k + (expectedCalls env ctx listName L1 k).length)) := by
  intro L1
  induction L1 with
  | nil => intro L2 k; simp [expectedCalls, hasNil]
  | cons e L1 ih =>
    intro L2 k
    obtain ⟨a, n, tx⟩ := e
    cases tx with
    | none => simp [expectedCalls, hasNil]
    | some t =>
      have h : hasNil ((a, n, some t) :: L1) = hasNil L1 := by simp [hasNil]
      rw [h]
      simp only [List.cons_append, expectedCalls, List.length_cons, List.append_eq]
      rw [ih L2 (k + 1)]
      have hk : k + 1 + (expectedCalls env ctx listName L1 (k + 1)).length =
          k + ((expectedCalls env ctx listName L1 (k + 1)).length + 1) := by omega
      rw [hk]

/-- The run of the inner loop over the entries of one address. -/
theorem processAddress_spec {σ : Type} (env : Env σ) (ctx : Context) (listName : String)
    (address : String) :
    ∀ (txs : List (String × Option types.Transaction)) (w : World σ),
      (processAddress env ctx listName address txs w).world.calls =
          w.calls ++ expectedCalls env ctx listName
            (txs.map (fun q => (address, q.1, q.2))) w.clock ∧
        (processAddress env ctx listName address txs w).world.clock =
          w.clock + (expectedCalls env ctx listName
            (txs.map (fun q => (address, q.1, q.2))) w.clock).length ∧
        (processAddress env ctx listName address txs w).world.log = w.log ∧
        (processAddress env ctx listName address txs w).panicked =
          hasNil (txs.map (fun q => (address, q.1, q.2))) := by
  intro txs
  induction txs with
  | nil => intro w; simp [processAddress, expectedCalls, hasNil, Run.world, Run.panicked]
  | cons q rest ih =>
    intro w
    obtain ⟨nonce, tx⟩ := q
    cases tx with
    | none =>
      simp [processAddress, processRecord, expectedCalls, hasNil, Run.world, Run.panicked]
    | some t =>
      obtain ⟨w2, h, hc, hk, hl, _⟩ := processRecord_some env ctx listName address nonce t w
      obtain ⟨i1, i2, i3, i4⟩ := ih w2
      have hn : hasNil (List.map (fun q => (address, q.1, q.2)) ((nonce, some t) :: rest)) =
          hasNil (List.map (fun q => (address, q.1, q.2)) rest) := by simp [hasNil]
      rw [hn]
      simp only [processAddress, h, List.map_cons, expectedCalls, List.length_cons]
      rw [hk] at i1 i2
      refine ⟨?_, ?_, ?_, i4⟩
      · rw [i1, hc]; simp
      · rw [i2]; omega
      · rw [i3, hl]

/-- The run of `processTransactionBatch`: the calls added are the expected ones (one per
entry up to the first nil transaction), the log is untouched, and the run panics exactly
when some entry has a nil transaction. -/
theorem processTransactionBatch_spec {σ : Type} (env : Env σ) (ctx : Context)
    (listName : String) :
    ∀ (m : TxMap) (w : World σ),
      (processTransactionBatch env ctx listName m w).world.calls =
          w.calls ++ expectedCalls env ctx listName (entries m) w.clock ∧
        (processTransactionBatch env ctx listName m w).world.clock =
          w.clock + (expectedCalls env ctx listName (entries m) w.clock).length ∧
        (processTransactionBatch env ctx listName m w).world.log = w.log ∧
        (processTransactionBatch env ctx listName m w).panicked = hasNil (entries m) := by
  intro m
  induction m with
  | nil =>
    intro w
    simp [processTransactionBatch, entries, expectedCalls, hasNil, Run.world, Run.panicked]
  | cons p rest ih =>
    intro w
    obtain ⟨address, txs⟩ := p
    obtain ⟨a1, a2, a3, a4⟩ := processAddress_spec env ctx listName address txs w
    simp only [processTransactionBatch, entries, expectedCalls_append, hasNil_append]
    cases h : processAddress env ctx listName address txs w with
    | panic w1 =>
      rw [h] at a1 a2 a3 a4
      simp only [Run.world, Run.panicked] at a1 a2 a3 a4 ⊢
      rw [← a4]
      simp [a1, a2, a3]
    | done w1 =>
      rw [h] at a1 a2 a3 a4
      simp only [Run.world, Run.panicked] at a1 a2 a3 a4
      obtain ⟨i1, i2, i3, i4⟩ := ih w1
      rw [← a4]
      simp only [Bool.false_eq_true, if_false, Bool.false_or]
      rw [a2] at i1 i2
      refine ⟨?_, ?_, ?_, i4⟩
      · rw [i1, a1]; simp
      · rw [i2]; simp; omega
      · rw [i3, a3]

theorem processAddress_withLog {σ : Type} (env : Env σ) (ctx : Context) (listName : String)
    (address : String) (l : List LogEntry) :
    ∀ (txs : List (String × Option types.Transaction)) (w : World σ),
      processAddress env ctx listName address txs (w.withLog l) =
        (processAddress env ctx listName address txs w).map (fun v => v.withLog l) := by
  intro txs
  induction txs with
  | nil => intro w; simp [processAddress, Run.map]
  | cons q rest ih =>
    intro w
    obtain ⟨nonce, tx⟩ := q
    simp only [processAddress, processRecord_withLog]
    cases processRecord env ctx listName address nonce tx w with
    | done w1 => simp only [Run.map, ih]
    | panic w1 => simp only [Run.map]

theorem processTransactionBatch_withLog {σ : Type} (env : Env σ) (ctx : Context)
    (listName : String) (l : List LogEntry) :
    ∀ (m : TxMap) (w : World σ),
      processTransactionBatch env ctx listName m (w.withLog l) =
        (processTransactionBatch env ctx listName m w).map (fun v => v.withLog l) := by
  intro m
  induction m with
  | nil => intro w; simp [processTransactionBatch, Run.map]
  | cons p rest ih =>
    intro w
    obtain ⟨address, txs⟩ := p
    simp only [processTransactionBatch, processAddress_withLog]
    cases processAddress env ctx listName address txs w with
    | done w1 => simp only [Run.map, ih]
    | panic w1 => simp only [Run.map]

theorem expectedCalls_mem {σ : Type} (env : Env σ) (ctx : Context) (listName : String)
    (c : StoreCall) :
    ∀ (L : List (String × String × Option types.Transaction)) (k : Nat),
      c ∈ expectedCalls env ctx listName L k →
        ∃ address tx j, c = recordCall env ctx listName address tx j := by
  intro L
  induction L with
  | nil => intro k h; simp [expectedCalls] at h
  | cons e L ih =>
    intro k h
    obtain ⟨a, n, tx⟩ := e
    cases tx with
    | none => simp [expectedCalls] at h
    | some t =>
      simp only [expectedCalls, List.mem_cons] at h
      rcases h with h | h
      · exact ⟨a, t, k, h⟩
      · exact ih (k + 1) h

theorem expectedCalls_forall₂ {σ : Type} (env : Env σ) (ctx : Context) (listName : String) :
    ∀ (L : List (String × String × Option types.Transaction)) (k : Nat),
      hasNil L = false →
        List.Forall₂ (StoresEntry ctx listName) L (expectedCalls env ctx listName L k) := by
  intro L
  induction L with
  | nil => intro k _; simp [expectedCalls]
  | cons e L ih =>
    intro k h
    obtain ⟨a, n, tx⟩ := e
    cases tx with
    | none => simp [hasNil] at h
    | some t =>
      have h2 : hasNil L = false := by
        simpa [hasNil] using h
      simp only [expectedCalls]
      refine List.Forall₂.cons ?_ (ih (k + 1) h2)
      simp [StoresEntry, recordCall, buildMetadata_From, buildMetadata_Nonce]

/-- The calls issued by `processTransactionBatch` are the expected ones. -/
theorem issued_processTransactionBatch {σ : Type} (env : Env σ) (ctx : Context)
    (listName : String) (m : TxMap) (w : World σ) :
    issued w (processTransactionBatch env ctx listName m w) =
      expectedCalls env ctx listName (entries m) w.clock := by
  unfold issued
  rw [(processTransactionBatch_spec env ctx listName m w).1]
  simp

/-- Every call issued by `processTransactionBatch` carries the context and list name it
was given and the metadata `buildMetadata` makes of its transaction. -/
theorem issued_is_recordCall {σ : Type} (env : Env σ) (ctx : Context) (listName : String)
    (m : TxMap) (w : World σ) (c : StoreCall)
    (hc : c ∈ issued w (processTransactionBatch env ctx listName m w)) :
    ∃ address tx j, c = recordCall env ctx listName address tx j := by
  rw [issued_processTransactionBatch] at hc
  exact expectedCalls_mem env ctx listName c _ _ hc

/-! ## One poll cycle -/

/-- A failed cycle returns and leaves storage, clock, call trace and output alone. -/
theorem getTransactions_fails {σ : Type} (env : Env σ) (cyc : Cycle) (ctx : Context)
    (endpoint : config.Endpoint) (w : World σ) (h : cyc.fails = true) :
    ∃ w2, getTransactions env cyc ctx endpoint w = .done w2 ∧ w2.calls = w.calls ∧
      w2.storage = w.storage ∧ w2.clock = w.clock ∧ w2.stdout = w.stdout := by
  obtain ⟨m, nr, sd, ce, ra, um⟩ := cyc
  unfold getTransactions
  cases m <;> cases nr <;> cases sd <;> cases ce <;> cases ra <;> cases um <;>
    simp_all [Cycle.fails, World.logged]

theorem Cycle.decoded_fields (cyc : Cycle) (rpc : RPCResponse) (h : cyc.decoded = some rpc) :
    cyc.marshal = none ∧ cyc.newRequest = none ∧ cyc.send = none ∧ cyc.readAll = none ∧
      cyc.unmarshal = .ok rpc := by
  obtain ⟨m, nr, sd, ce, ra, um⟩ := cyc
  cases m <;> cases nr <;> cases sd <;> cases ra <;> cases um <;>
    simp_all [Cycle.decoded]

/-- A cycle whose response decodes: the calls added are those of the pending bucket and
then, unless a nil transaction stopped the run, those of the queued bucket. -/
theorem getTransactions_decoded {σ : Type} (env : Env σ) (cyc : Cycle) (ctx : Context)
    (endpoint : config.Endpoint) (w : World σ) (rpc : RPCResponse)
    (h : cyc.decoded = some rpc) :
    (getTransactions env cyc ctx endpoint w).world.calls =
        w.calls ++ expectedCalls env ctx "pending" (entries rpc.Result.Pending) w.clock ++
          (if hasNil (entries rpc.Result.Pending) then [] else
            expectedCalls env ctx "queued" (entries rpc.Result.Queued)
              (w.clock +
                (expectedCalls env ctx "pending" (entries rpc.Result.Pending) w.clock).length)) ∧
      (getTransactions env cyc ctx endpoint w).panicked =
        (hasNil (entries rpc.Result.Pending) || hasNil (entries rpc.Result.Queued)) := by
  obtain ⟨h1, h2, h3, h4, h5⟩ := cyc.decoded_fields rpc h
  unfold getTransactions
  simp only [h1, h2, h3, h4, h5]
  obtain ⟨a1, a2, _, a4⟩ := processTransactionBatch_spec env ctx "pending" rpc.Result.Pending
    (w.logged "info" "Polling transactions" [("endpoint", endpoint.Name)])
  cases hp : processTransactionBatch env ctx "pending" rpc.Result.Pending
      (w.logged "info" "Polling transactions" [("endpoint", endpoint.Name)]) with
  | panic w1 =>
    rw [hp] at a1 a4
    simp only [Run.world, Run.panicked] at a1 a4 ⊢
    rw [← a4, a1]
    simp [World.logged]
  | done w1 =>
    rw [hp] at a1 a2 a4
    simp only [Run.world, Run.panicked] at a1 a2 a4
    obtain ⟨b1, _, _, b4⟩ := processTransactionBatch_spec env ctx "queued" rpc.Result.Queued w1
    rw [← a4]
    simp only [Bool.false_eq_true, if_false, Bool.false_or]
    cases hq : processTransactionBatch env ctx "queued" rpc.Result.Queued w1 with
    | panic w2 =>
      rw [hq] at b1 b4
      simp only [Run.world, Run.panicked] at b1 b4 ⊢
      rw [← b4, b1, a1, a2]
      simp [World.logged]
    | done w2 =>
      rw [hq] at b1 b4
      simp only [Run.world, Run.panicked] at b1 b4 ⊢
      rw [← b4]
      simp only [World.logged]
      rw [b1, a1, a2]
      simp [World.logged]

/-- Up to the log, a poll cycle does not depend on the endpoint it is run for. -/
theorem getTransactions_endpoint {σ : Type} (env : Env σ) (cyc : Cycle) (ctx : Context)
    (e1 e2 : config.Endpoint) (w : World σ) :
    (getTransactions env cyc ctx e1 w).map (fun v => v.withLog []) =
      (getTransactions env cyc ctx e2 w).map (fun v => v.withLog []) := by
  have hlog : ∀ (level msg : String) (fields : List (String × String)) (v : World σ),
      v.logged level msg fields =
        v.withLog (v.log ++ [{ level := level, msg := msg, fields := fields }]) := by
    intro level msg fields v; rfl
  obtain ⟨m, nr, sd, ce, ra, um⟩ := cyc
  unfold getTransactions
  cases m <;> cases nr <;> cases sd <;> cases ce <;> cases ra <;> cases um <;>
    simp only [Run.map, World.logged, World.withLog]
  all_goals
    rename_i rpc
    have q1 := processTransactionBatch_withLog env ctx "pending"
      (w.log ++ [{ level := "info", msg := "Polling transactions",
                   fields := [("endpoint", e1.Name)] }]) rpc.Result.Pending w
    have q2 := processTransactionBatch_withLog env ctx "pending"
      (w.log ++ [{ level := "info", msg := "Polling transactions",
                   fields := [("endpoint", e2.Name)] }]) rpc.Result.Pending w
    simp only [World.withLog] at q1 q2
    rw [q1, q2]
    cases processTransactionBatch env ctx "pending" rpc.Result.Pending w with
    | panic w1 => simp only [Run.map]
    | done w1 =>
      simp only [Run.map]
      have r1 := processTransactionBatch_withLog env ctx "queued"
        (w.log ++ [{ level := "info", msg := "Polling transactions",
                     fields := [("endpoint", e1.Name)] }]) rpc.Result.Queued w1
      have r2 := processTransactionBatch_withLog env ctx "queued"
        (w.log ++ [{ level := "info", msg := "Polling transactions",
                     fields := [("endpoint", e2.Name)] }]) rpc.Result.Queued w1
      simp only [World.withLog] at r1 r2
      rw [r1, r2]
      cases processTransactionBatch env ctx "queued" rpc.Result.Queued w1 with
      | panic w2 => simp only [Run.map]
      | done w2 => simp only [Run.map]

/-! ## The loop of one poller -/

theorem Poller.step_of_not_running {σ : Type} (env : Env σ) (cfg : config.Config)
    (ctx : Context) (endpoint : config.Endpoint) (p : Poller σ) (s : Select)
    (h : p.status ≠ Status.running) : Poller.step env cfg ctx endpoint p s = p := by
  unfold Poller.step
  cases hs : p.status with
  | running => exact absurd hs h
  | returned => rfl
  | panicked => rfl

theorem Poller.run_of_not_running {σ : Type} (env : Env σ) (cfg : config.Config)
    (ctx : Context) (endpoint : config.Endpoint) (steps : List Select) :
    ∀ (p : Poller σ), p.status ≠ Status.running →
      Poller.run env cfg ctx endpoint p steps = p := by
  induction steps with
  | nil => intro p _; rfl
  | cons s rest ih =>
    intro p h
    have hs := Poller.step_of_not_running env cfg ctx endpoint p s h
    simp only [Poller.run, List.foldl_cons, hs]
    exact ih p h

theorem Poller.run_cons {σ : Type} (env : Env σ) (cfg : config.Config)
    (ctx : Context) (endpoint : config.Endpoint) (p : Poller σ) (s : Select)
    (rest : List Select) :
    Poller.run env cfg ctx endpoint p (s :: rest) =
      Poller.run env cfg ctx endpoint (Poller.step env cfg ctx endpoint p s) rest := by
  simp [Poller.run]

/-- A pass that takes the cancellation case ends the loop. -/
theorem Poller.step_ctxDone {σ : Type} (env : Env σ) (cfg : config.Config)
    (ctx : Context) (endpoint : config.Endpoint) (p : Poller σ) (s : Select)
    (hrun : p.status = Status.running) (hb : s.branch = some Branch.ctxDone) :
    (Poller.step env cfg ctx endpoint p s).status = Status.returned ∧
      (Poller.step env cfg ctx endpoint p s).tickerStopped = true ∧
      (Poller.step env cfg ctx endpoint p s).cycles = p.cycles ∧
      (Poller.step env cfg ctx endpoint p s).world.calls = p.world.calls ∧
      (Poller.step env cfg ctx endpoint p s).world.storage = p.world.storage := by
  unfold Poller.step
  simp [hrun, hb, World.logged]

/-- A pass that does not take the cancellation case, in a cycle that fails, leaves the
loop running and the store alone. -/
theorem Poller.step_failed {σ : Type} (env : Env σ) (cfg : config.Config)
    (ctx : Context) (endpoint : config.Endpoint) (p : Poller σ) (s : Select)
    (hrun : p.status = Status.running) (hb : s.branch ≠ some Branch.ctxDone)
    (hf : s.cycle.fails = true) :
    (Poller.step env cfg ctx endpoint p s).status = Status.running ∧
      (Poller.step env cfg ctx endpoint p s).tickerStopped = p.tickerStopped ∧
      (Poller.step env cfg ctx endpoint p s).cycles =
        p.cycles + (if s.branch = some Branch.tickerC then 1 else 0) ∧
      (Poller.step env cfg ctx endpoint p s).world.calls = p.world.calls ∧
      (Poller.step env cfg ctx endpoint p s).world.storage = p.world.storage := by
  unfold Poller.step
  cases hbr : s.branch with
  | none => simp [hrun]
  | some b =>
    cases b with
    | ctxDone => exact absurd hbr hb
    | tickerC =>
      obtain ⟨w2, h, hc, hs, _, _⟩ := getTransactions_fails env s.cycle
        (ctx.WithTimeout (cfg.polling "timeout")) endpoint p.world hf
      simp [hrun, h, hc, hs]

/-! ## The metadata that `processTransactionBatch` stores -/

/-- C1, as the code has it: every record that `processTransactionBatch` stores has
`MaxFeePerGas`, `MaxPriorityFee` and `MaxFeePerBlobGas` absent; a blob transaction is
classified `BlobTx` and a dynamic-fee transaction `EIP1559Tx`, both with no fee field at
all, and every other transaction is classified `LegacyTx` with `GasPrice` alone. -/
theorem fee_model_of_stored_record {σ : Type} (env : Env σ) (ctx : Context)
    (listName : String) (m : TxMap) (w : World σ) (c : StoreCall)
    (hc : c ∈ issued w (processTransactionBatch env ctx listName m w)) :
    c.storedTx.Metadata.MaxFeePerGas = none ∧
      c.storedTx.Metadata.MaxPriorityFee = none ∧
      c.storedTx.Metadata.MaxFeePerBlobGas = none ∧
      ((c.storedTx.Tx.Type_ = types.BlobTxType ∧ c.storedTx.Metadata.Type_ = BlobTx ∧
          c.storedTx.Metadata.GasPrice = none) ∨
        (c.storedTx.Tx.Type_ = types.DynamicFeeTxType ∧
          c.storedTx.Metadata.Type_ = EIP1559Tx ∧ c.storedTx.Metadata.GasPrice = none) ∨
        (c.storedTx.Tx.Type_ ≠ types.BlobTxType ∧
          c.storedTx.Tx.Type_ ≠ types.DynamicFeeTxType ∧
          c.storedTx.Metadata.Type_ = LegacyTx ∧
          c.storedTx.Metadata.GasPrice = some c.storedTx.Tx.GasPrice)) := by
  obtain ⟨address, tx, j, rfl⟩ := issued_is_recordCall env ctx listName m w c hc
  simp only [recordCall]
  obtain ⟨f1, f2, f3⟩ := buildMetadata_maxFees address tx (env.now j)
  refine ⟨f1, f2, f3, ?_⟩
  by_cases hb : tx.Type_ = types.BlobTxType
  · exact Or.inl ⟨hb, buildMetadata_blob address tx _ hb⟩
  · by_cases hd : tx.Type_ = types.DynamicFeeTxType
    · exact Or.inr (Or.inl ⟨hd, buildMetadata_dynamicFee address tx _ hd⟩)
    · exact Or.inr (Or.inr ⟨hb, hd, buildMetadata_default address tx _ hb hd⟩)

/-- C1, witness: the three records of a batch holding a legacy, a dynamic-fee and a blob
transaction; the theorem is applied to the record of the legacy one. -/
theorem fee_model_of_stored_record_witness :
    recordCall envOk ctx0 "pending" "0xA1" txLegacy 0 ∈
        issued world0 (processTransactionBatch envOk ctx0 "pending"
          [("0xA1", [("7", some txLegacy)]), ("0xB2", [("3", some txDynamic)]),
            ("0xC3", [("4", some txBlob)])] world0) ∧
      (recordCall envOk ctx0 "pending" "0xA1" txLegacy 0).storedTx.Metadata.GasPrice =
        some 100 :=
  have h : recordCall envOk ctx0 "pending" "0xA1" txLegacy 0 ∈
      issued world0 (processTransactionBatch envOk ctx0 "pending"
        [("0xA1", [("7", some txLegacy)]), ("0xB2", [("3", some txDynamic)]),
          ("0xC3", [("4", some txBlob)])] world0) := by decide
  ⟨h, by
    have q := (fee_model_of_stored_record envOk ctx0 "pending" _ world0 _ h).2.2.2
    rcases q with q | q | q
    · exact absurd q.1 (by decide)
    · exact absurd q.1 (by decide)
    · exact q.2.2.2⟩

/-- C1, counterexample: the records stored for a dynamic-fee and for a blob transaction
are classified `EIP1559Tx` and `BlobTx` and have every fee field absent, `MaxFeePerGas`,
`MaxPriorityFee` and `MaxFeePerBlobGas` included. -/
theorem fee_model_unpopulated_for_typed_transactions :
    (issued world0 (processTransactionBatch envOk ctx0 "pending"
        [("0xB2", [("3", some txDynamic)]), ("0xC3", [("4", some txBlob)])] world0)).map
      (fun c => (c.storedTx.Metadata.Type_, c.storedTx.Metadata.GasPrice,
        c.storedTx.Metadata.MaxFeePerGas, c.storedTx.Metadata.MaxPriorityFee,
        c.storedTx.Metadata.MaxFeePerBlobGas)) =
      [(EIP1559Tx, none, none, none, none), (BlobTx, none, none, none, none)] := by
  decide

/-- C6, as the code has it: in every record that `processTransactionBatch` stores, the
`To` field is the empty string when the transaction has no recipient (contract creation),
and the recipient's address when it has one. -/
theorem recipient_of_stored_record {σ : Type} (env : Env σ) (ctx : Context)
    (listName : String) (m : TxMap) (w : World σ) (c : StoreCall)
    (hc : c ∈ issued w (processTransactionBatch env ctx listName m w)) :
    (c.storedTx.Tx.To = none → c.storedTx.Metadata.To = "") ∧
      (∀ a : common.Address, c.storedTx.Tx.To = some a →
        c.storedTx.Metadata.To = a.String) := by
  obtain ⟨address, tx, j, rfl⟩ := issued_is_recordCall env ctx listName m w c hc
  have h := buildMetadata_To address tx (env.now j)
  simp only [recordCall]
  constructor
  · intro hn
    rw [h, hn]
  · intro a ha
    rw [h, ha]

/-- C6, witness: a transfer and a contract creation in one batch; the theorem is applied
to the record of the transfer. -/
theorem recipient_of_stored_record_witness :
    recordCall envOk ctx0 "queued" "0xA1" txLegacy 0 ∈
        issued world0 (processTransactionBatch envOk ctx0 "queued"
          [("0xA1", [("7", some txLegacy), ("0", some txCreate)])] world0) ∧
      (recordCall envOk ctx0 "queued" "0xA1" txLegacy 0).storedTx.Metadata.To =
        "0x0000000000000000000000000000000000000011" :=
  have h : recordCall envOk ctx0 "queued" "0xA1" txLegacy 0 ∈
      issued world0 (processTransactionBatch envOk ctx0 "queued"
        [("0xA1", [("7", some txLegacy), ("0", some txCreate)])] world0) := by decide
  ⟨h, (recipient_of_stored_record envOk ctx0 "queued" _ world0 _ h).2
    { hex := "0x0000000000000000000000000000000000000011" } rfl⟩

/-- C6, counterexample: the record stored for a contract creation has the empty string in
`To`. -/
theorem contract_creation_stored_with_empty_To :
    txCreate.To = none ∧
      (issued world0 (processTransactionBatch envOk ctx0 "pending"
          [("0xA1", [("0", some txCreate)])] world0)).map
        (fun c => c.storedTx.Metadata.To) = [""] := by
  decide

/-- C7: every transaction whose type tag is neither the blob nor the dynamic-fee tag
(the tags the switch has no case for, unknown ones included) is stored by
`processTransactionBatch` classified `LegacyTx`, with `GasPrice` the gas price of the
transaction and `MaxFeePerGas`, `MaxPriorityFee` and `MaxFeePerBlobGas` absent. -/
theorem unsupported_tag_stored_as_legacy {σ : Type} (env : Env σ) (ctx : Context)
    (listName : String) (m : TxMap) (w : World σ) (c : StoreCall)
    (hc : c ∈ issued w (processTransactionBatch env ctx listName m w))
    (hb : c.storedTx.Tx.Type_ ≠ types.BlobTxType)
    (hd : c.storedTx.Tx.Type_ ≠ types.DynamicFeeTxType) :
    c.storedTx.Metadata.Type_ = LegacyTx ∧
      c.storedTx.Metadata.GasPrice = some c.storedTx.Tx.GasPrice ∧
      c.storedTx.Metadata.MaxFeePerGas = none ∧
      c.storedTx.Metadata.MaxPriorityFee = none ∧
      c.storedTx.Metadata.MaxFeePerBlobGas = none := by
  obtain ⟨address, tx, j, rfl⟩ := issued_is_recordCall env ctx listName m w c hc
  simp only [recordCall] at hb hd ⊢
  obtain ⟨f1, f2, f3⟩ := buildMetadata_maxFees address tx (env.now j)
  obtain ⟨g1, g2⟩ := buildMetadata_default address tx (env.now j) hb hd
  exact ⟨g1, g2, f1, f2, f3⟩

/-- C7, witness: a set-code transaction (tag 4) and one with the unknown tag 9. -/
theorem unsupported_tag_stored_as_legacy_witness :
    issued world0 (processTransactionBatch envOk ctx0 "pending"
        [("0xD4", [("1", some txSetCode), ("2", some { txSetCode with Type_ := 9 })])]
        world0) =
      [recordCall envOk ctx0 "pending" "0xD4" txSetCode 0,
        recordCall envOk ctx0 "pending" "0xD4" { txSetCode with Type_ := 9 } 1] ∧
      (recordCall envOk ctx0 "pending" "0xD4"
          { txSetCode with Type_ := 9 } 1).storedTx.Metadata.Type_ = LegacyTx ∧
      (recordCall envOk ctx0 "pending" "0xD4"
          { txSetCode with Type_ := 9 } 1).storedTx.Metadata.GasPrice = some 20 :=
  have h := unsupported_tag_stored_as_legacy envOk ctx0 "pending"
    [("0xD4", [("1", some txSetCode), ("2", some { txSetCode with Type_ := 9 })])] world0
    (recordCall envOk ctx0 "pending" "0xD4" { txSetCode with Type_ := 9 } 1)
    (by decide) (by decide) (by decide)
  ⟨by decide, h.1, h.2.1⟩

/-- C8, as the code has it: in every record that `processTransactionBatch` stores,
`IsContract` is false, whether or not the transaction has a recipient. -/
theorem IsContract_of_stored_record {σ : Type} (env : Env σ) (ctx : Context)
    (listName : String) (m : TxMap) (w : World σ) (c : StoreCall)
    (hc : c ∈ issued w (processTransactionBatch env ctx listName m w)) :
    c.storedTx.Metadata.IsContract = false := by
  obtain ⟨address, tx, j, rfl⟩ := issued_is_recordCall env ctx listName m w c hc
  exact buildMetadata_IsContract address tx _

/-- C8, witness: the record of a contract creation. -/
theorem IsContract_of_stored_record_witness :
    (recordCall envOk ctx0 "pending" "0xA1" txCreate 0).storedTx.Tx.To = none ∧
      (recordCall envOk ctx0 "pending" "0xA1" txCreate 0).storedTx.Metadata.IsContract =
        false :=
  ⟨rfl, IsContract_of_stored_record envOk ctx0 "pending"
    [("0xA1", [("0", some txCreate)])] world0 _ (by decide)⟩

/-- C8, counterexample: a transaction without recipient is stored with `IsContract`
false. -/
theorem contract_creation_stored_with_IsContract_false :
    txCreate.To = none ∧
      (issued world0 (processTransactionBatch envOk ctx0 "queued"
          [("0xA1", [("0", some txCreate)])] world0)).map
        (fun c => c.storedTx.Metadata.IsContract) = [false] := by
  decide

/-! ## What a poll cycle writes -/

/-- C2, as the code has it: a `StoreTransaction` call carries the context, the stored
transaction and the list name and nothing of the endpoint, so for the same answer of the
outside the calls that `getTransactions` issues, the storage it leaves and whether it
panics are the same for any two endpoints, whatever their names. -/
theorem store_calls_independent_of_endpoint {σ : Type} (env : Env σ) (cyc : Cycle)
    (ctx : Context) (e1 e2 : config.Endpoint) (w : World σ) :
    (getTransactions env cyc ctx e1 w).world.calls =
        (getTransactions env cyc ctx e2 w).world.calls ∧
      (getTransactions env cyc ctx e1 w).world.storage =
        (getTransactions env cyc ctx e2 w).world.storage ∧
      (getTransactions env cyc ctx e1 w).panicked =
        (getTransactions env cyc ctx e2 w).panicked := by
  have h := getTransactions_endpoint env cyc ctx e1 e2 w
  cases h1 : getTransactions env cyc ctx e1 w <;>
    cases h2 : getTransactions env cyc ctx e2 w <;>
    rw [h1, h2] at h <;>
    simp only [Run.map, World.withLog, Run.done.injEq, Run.panic.injEq, World.mk.injEq,
      reduceCtorEq] at h <;>
    simp [Run.world, Run.panicked, h]

/-- C2, counterexample: for the endpoints `geth` and `reth`, whose names differ, the same
response leads to the same two `StoreTransaction` calls. -/
theorem store_calls_equal_for_geth_and_reth :
    geth.Name ≠ reth.Name ∧
      (getTransactions envOk (cycleOk resultTwo) ctx0 geth world0).world.calls =
        (getTransactions envOk (cycleOk resultTwo) ctx0 reth world0).world.calls ∧
      (getTransactions envOk (cycleOk resultTwo) ctx0 geth world0).world.calls =
        [recordCall envOk ctx0 "pending" "0xA1" txLegacy 0,
          recordCall envOk ctx0 "queued" "0xB2" txDynamic 1] := by
  decide

/-- When the response decodes and no entry has a nil transaction, `getTransactions`
returns and the calls it has added to the trace are exactly one per entry of the pending
bucket, under the list name "pending", followed by one per entry of the queued bucket,
under "queued"; each stores the transaction of its entry with `From` the address key and
`Nonce` the nonce of the transaction. This holds whatever `StoreTransaction` answers. -/
theorem getTransactions_stores_entries_without_nil {σ : Type} (env : Env σ) (cyc : Cycle)
    (ctx : Context) (endpoint : config.Endpoint) (w : World σ) (rpc : RPCResponse)
    (hdec : cyc.decoded = some rpc)
    (hp : ∀ e ∈ entries rpc.Result.Pending, e.2.2 ≠ none)
    (hq : ∀ e ∈ entries rpc.Result.Queued, e.2.2 ≠ none) :
    ∃ w2 cp cq, getTransactions env cyc ctx endpoint w = .done w2 ∧
      w2.calls = w.calls ++ cp ++ cq ∧
      issued w (getTransactions env cyc ctx endpoint w) = cp ++ cq ∧
      List.Forall₂ (StoresEntry ctx "pending") (entries rpc.Result.Pending) cp ∧
      List.Forall₂ (StoresEntry ctx "queued") (entries rpc.Result.Queued) cq := by
  have hp2 : hasNil (entries rpc.Result.Pending) = false := by
    simp only [hasNil, List.any_eq_false]
    intro e he
    have := hp e he
    cases h : e.2.2 <;> simp_all
  have hq2 : hasNil (entries rpc.Result.Queued) = false := by
    simp only [hasNil, List.any_eq_false]
    intro e he
    have := hq e he
    cases h : e.2.2 <;> simp_all
  obtain ⟨hc, hpan⟩ := getTransactions_decoded env cyc ctx endpoint w rpc hdec
  rw [hp2, hq2] at hpan
  rw [hp2] at hc
  simp only [Bool.false_eq_true, if_false] at hc
  cases hr : getTransactions env cyc ctx endpoint w with
  | panic w2 => rw [hr] at hpan; simp [Run.panicked] at hpan
  | done w2 =>
    rw [hr] at hc
    simp only [Run.world] at hc
    refine ⟨w2, _, _, rfl, hc, ?_, expectedCalls_forall₂ env ctx "pending" _ _ hp2,
      expectedCalls_forall₂ env ctx "queued" _ _ hq2⟩
    simp [issued, Run.world, hc]

/-- One pending and one queued transaction, with a storage that refuses every write: both
are passed to `StoreTransaction`. -/
theorem getTransactions_stores_entries_without_nil_example :
    ∃ w2 cp cq, getTransactions envErr (cycleOk resultTwo) ctx0 geth world0 = .done w2 ∧
      w2.calls = world0.calls ++ cp ++ cq ∧
      issued world0 (getTransactions envErr (cycleOk resultTwo) ctx0 geth world0) = cp ++ cq ∧
      List.Forall₂ (StoresEntry ctx0 "pending") (entries resultTwo.Pending) cp ∧
      List.Forall₂ (StoresEntry ctx0 "queued") (entries resultTwo.Queued) cq :=
  getTransactions_stores_entries_without_nil envErr (cycleOk resultTwo) ctx0 geth world0
    { JSONRPC := "2.0", ID := 1, Result := resultTwo } rfl (by decide) (by decide)

/-- C3, at the failing input: the response whose pending bucket holds one `null` entry and
whose queued bucket holds one valid transaction decodes, and has two entries; yet
`getTransactions` panics having issued no `StoreTransaction` call at all, so neither entry,
the valid queued one included, gets its call. -/
theorem decoded_response_with_null_entry_stores_nothing :
    (cycleOk resultNull).decoded =
        some { JSONRPC := "2.0", ID := 1, Result := resultNull } ∧
      entries resultNull.Pending = [("0xA1", "7", none)] ∧
      entries resultNull.Queued = [("0xB2", "3", some txDynamic)] ∧
      (getTransactions envOk (cycleOk resultNull) ctx0 reth world0).panicked = true ∧
      issued world0 (getTransactions envOk (cycleOk resultNull) ctx0 reth world0) = [] ∧
      (getTransactions envOk (cycleOk resultNull) ctx0 reth world0).world.storage = [] := by
  decide

/-- C4, at the failing input: a batch whose first entry is `null` and whose second is a
valid transaction panics before any `StoreTransaction` call; in a poll cycle a `null` in
the pending bucket also keeps the whole queued bucket from being stored, and the panic
ends the poller. A store error, by contrast, is printed and the batch goes on. -/
theorem nil_transaction_aborts_batch :
    (processTransactionBatch envOk ctx0 "pending"
        [("0xA1", [("6", none), ("7", some txLegacy)])] world0).panicked = true ∧
      (processTransactionBatch envOk ctx0 "pending"
        [("0xA1", [("6", none), ("7", some txLegacy)])] world0).world.calls = [] ∧
      (getTransactions envOk (cycleOk resultNull) ctx0 geth world0).panicked = true ∧
      (getTransactions envOk (cycleOk resultNull) ctx0 geth world0).world.calls = [] ∧
      (Poller.step envOk cfg0 ctx0 geth poller0
        { cancelled := false, tick := true, pickDone := false,
          cycle := cycleOk resultNull }).status = Status.panicked ∧
      (processTransactionBatch envErr ctx0 "pending"
        [("0xA1", [("7", some txLegacy)]), ("0xB2", [("3", some txDynamic)])]
        world0).world.calls =
        [recordCall envErr ctx0 "pending" "0xA1" txLegacy 0,
          recordCall envErr ctx0 "pending" "0xB2" txDynamic 1] := by
  decide

/-! ## Failure and cancellation in the loop -/

/-- C5: over any sequence of passes of the loop whose cycles all fail, started in the
loop: each of the cycles returns without a `StoreTransaction` call and with the storage
as it was; the loop never panics and adds no call; it has returned exactly when some pass
took the cancellation case; and as long as none did, it is still running with its ticker
live, having started one cycle per tick served. -/
theorem failed_cycles_keep_polling {σ : Type} (env : Env σ) (cfg : config.Config)
    (ctx : Context) (endpoint : config.Endpoint) (steps : List Select) (p : Poller σ)
    (hrun : p.status = Status.running)
    (hfail : ∀ s ∈ steps, s.cycle.fails = true) :
    (∀ s ∈ steps, ∀ w : World σ,
        ∃ w2, getTransactions env s.cycle (ctx.WithTimeout (cfg.polling "timeout")) endpoint w =
            .done w2 ∧ w2.calls = w.calls ∧ w2.storage = w.storage) ∧
      (Poller.run env cfg ctx endpoint p steps).world.calls = p.world.calls ∧
      (Poller.run env cfg ctx endpoint p steps).world.storage = p.world.storage ∧
      (Poller.run env cfg ctx endpoint p steps).status ≠ Status.panicked ∧
      ((Poller.run env cfg ctx endpoint p steps).status = Status.returned ↔
        ∃ s ∈ steps, s.branch = some Branch.ctxDone) ∧
      ((∀ s ∈ steps, s.branch ≠ some Branch.ctxDone) →
        (Poller.run env cfg ctx endpoint p steps).status = Status.running ∧
        (Poller.run env cfg ctx endpoint p steps).tickerStopped = p.tickerStopped ∧
        (Poller.run env cfg ctx endpoint p steps).cycles =
          p.cycles + steps.countP (fun s => decide (s.branch = some Branch.tickerC))) := by
  refine ⟨?_, ?_⟩
  · intro s hs w
    obtain ⟨w2, h, hc, hst, _, _⟩ := getTransactions_fails env s.cycle
      (ctx.WithTimeout (cfg.polling "timeout")) endpoint w (hfail s hs)
    exact ⟨w2, h, hc, hst⟩
  · induction steps generalizing p with
    | nil => simp [Poller.run, hrun]
    | cons s rest ih =>
      rw [Poller.run_cons]
      by_cases hb : s.branch = some Branch.ctxDone
      · obtain ⟨a1, _, _, a4, a5⟩ := Poller.step_ctxDone env cfg ctx endpoint p s hrun hb
        have hnr : (Poller.step env cfg ctx endpoint p s).status ≠ Status.running := by
          rw [a1]; decide
        rw [Poller.run_of_not_running env cfg ctx endpoint rest _ hnr]
        refine ⟨a4, a5, ?_, ?_, ?_⟩
        · rw [a1]; decide
        · simp [a1, hb]
        · intro hall
          exact absurd hb (hall s (List.mem_cons_self s rest))
      · obtain ⟨a1, a2, a3, a4, a5⟩ := Poller.step_failed env cfg ctx endpoint p s hrun hb
          (hfail s (List.mem_cons_self s rest))
        obtain ⟨i1, i2, i3, i4, i5⟩ := ih (Poller.step env cfg ctx endpoint p s) a1
          (fun t ht => hfail t (List.mem_cons_of_mem s ht))
        refine ⟨by rw [i1, a4], by rw [i2, a5], i3, ?_, ?_⟩
        · rw [i4]
          constructor
          · rintro ⟨t, ht, hbt⟩
            exact ⟨t, List.mem_cons_of_mem s ht, hbt⟩
          · rintro ⟨t, ht, hbt⟩
            rcases List.mem_cons.mp ht with rfl | ht2
            · exact absurd hbt hb
            · exact ⟨t, ht2, hbt⟩
        · intro hall
          obtain ⟨j1, j2, j3⟩ := i5 (fun t ht => hall t (List.mem_cons_of_mem s ht))
          refine ⟨j1, by rw [j2, a2], ?_⟩
          rw [j3, a3, List.countP_cons]
          by_cases ht : s.branch = some Branch.tickerC
          · simp [ht]; omega
          · simp [ht]

/-- C5, witness: two ticks in a row, the first with a body that does not decode, the
second with a request that times out; the loop is still running and has stored nothing. -/
theorem failed_cycles_keep_polling_witness :
    (Poller.run envOk cfg0 ctx0 geth poller0
        [selectGarbled, { selectGarbled with cycle := cycleCancelled }]).world.calls =
        poller0.world.calls ∧
      (Poller.run envOk cfg0 ctx0 geth poller0
        [selectGarbled, { selectGarbled with cycle := cycleCancelled }]).status =
        Status.running ∧
      (Poller.run envOk cfg0 ctx0 geth poller0
        [selectGarbled, { selectGarbled with cycle := cycleCancelled }]).cycles = 2 :=
  have h := failed_cycles_keep_polling envOk cfg0 ctx0 geth
    [selectGarbled, { selectGarbled with cycle := cycleCancelled }] poller0
    (by decide) (by decide)
  ⟨h.2.1, (h.2.2.2.2.2 (by decide)).1, (h.2.2.2.2.2 (by decide)).2.2⟩

/-- C9, as the code has it: when the governing context is cancelled and the `select` meets
no waiting tick, or the run time picks the cancellation case over the tick, the pass
takes the cancellation case; the loop then returns with its ticker stopped, without
starting a cycle in that pass, and no later pass changes anything: no poll cycle is
started after it. The loop returns in no other way: a pass that makes it return met a
cancelled context. -/
theorem cancellation_case_ends_loop {σ : Type} (env : Env σ) (cfg : config.Config)
    (ctx : Context) (endpoint : config.Endpoint) (p : Poller σ) (s : Select)
    (rest : List Select)
    (hrun : p.status = Status.running)
    (hc : s.cancelled = true)
    (hpick : s.tick = false ∨ s.pickDone = true) :
    s.branch = some Branch.ctxDone ∧
      (Poller.step env cfg ctx endpoint p s).status = Status.returned ∧
      (Poller.step env cfg ctx endpoint p s).tickerStopped = true ∧
      (Poller.step env cfg ctx endpoint p s).cycles = p.cycles ∧
      (Poller.step env cfg ctx endpoint p s).world.calls = p.world.calls ∧
      Poller.run env cfg ctx endpoint p (s :: rest) = Poller.step env cfg ctx endpoint p s ∧
      (∀ s2 : Select, (Poller.step env cfg ctx endpoint p s2).status = Status.returned →
        s2.cancelled = true) := by
  have hb : s.branch = some Branch.ctxDone := by
    unfold Select.branch
    rcases hpick with h | h <;> cases ht : s.tick <;> simp_all
  obtain ⟨a1, a2, a3, a4, _⟩ := Poller.step_ctxDone env cfg ctx endpoint p s hrun hb
  have hnr : (Poller.step env cfg ctx endpoint p s).status ≠ Status.running := by
    rw [a1]; decide
  refine ⟨hb, a1, a2, a3, a4, ?_, ?_⟩
  · rw [Poller.run_cons]
    exact Poller.run_of_not_running env cfg ctx endpoint rest _ hnr
  · intro s2 h2
    unfold Poller.step at h2
    simp only [hrun] at h2
    cases hb2 : s2.branch with
    | none => simp [hb2, hrun] at h2
    | some b =>
      cases b with
      | ctxDone =>
        unfold Select.branch at hb2
        cases hcc : s2.cancelled <;> cases htt : s2.tick <;> simp_all
      | tickerC =>
        simp only [hb2] at h2
        split at h2 <;> simp [hrun] at h2

/-- C9, witness: the context is cancelled with no tick waiting; a tick that arrives after
the loop has returned starts nothing. -/
theorem cancellation_case_ends_loop_witness :
    (Poller.step envOk cfg0 ctx0 geth poller0 selectCancelled).status = Status.returned ∧
      (Poller.step envOk cfg0 ctx0 geth poller0 selectCancelled).tickerStopped = true ∧
      (Poller.run envOk cfg0 ctx0 geth poller0 [selectCancelled, selectLateTick]).cycles =
        0 :=
  have h := cancellation_case_ends_loop envOk cfg0 ctx0 geth poller0 selectCancelled
    [selectLateTick] (by decide) (by decide) (Or.inl (by decide))
  ⟨h.2.1, h.2.2.1, by rw [h.2.2.2.2.2.1, h.2.2.2.1]; decide⟩

/-- C9, counterexample: the context is already cancelled, a tick is waiting and the run
time picks the tick: a poll cycle is started after the cancellation, and the loop is
still running with its ticker live. -/
theorem poll_cycle_started_after_cancellation :
    selectLateTick.cancelled = true ∧
      poller0.status = Status.running ∧ poller0.cycles = 0 ∧
      (Poller.step envOk cfg0 ctx0 geth poller0 selectLateTick).cycles = 1 ∧
      (Poller.step envOk cfg0 ctx0 geth poller0 selectLateTick).status = Status.running ∧
      (Poller.step envOk cfg0 ctx0 geth poller0 selectLateTick).tickerStopped = false := by
  decide

end transactions

/-! ## The type names of `internal/model/types.go` -/

namespace model

/-- C10: for every `Tx`, `Tx.String` gives what `TransactionType.String` gives on its type
tag; the tags 0 to 4 get the names `LegacyTxType`, `AccessListTxType`,
`DynamicFeeTxType`, `BlobTxType` and `SetCodeTxType`, which are pairwise distinct, and
each of the two functions returns `unknown` on exactly the other tags. -/
theorem type_names_agree :
    (∀ t : Tx, t.String = TransactionType.String (TransactionType.ofUint8 t.Type_)) ∧
      [LegacyTxType, AccessListTxType, DynamicFeeTxType, BlobTxType, SetCodeTxType].map
          TransactionType.String =
        ["LegacyTxType", "AccessListTxType", "DynamicFeeTxType", "BlobTxType",
          "SetCodeTxType"] ∧
      ["LegacyTxType", "AccessListTxType", "DynamicFeeTxType", "BlobTxType",
          "SetCodeTxType"].Nodup ∧
      (∀ t : TransactionType, TransactionType.String t = "unknown" ↔
        t ≠ 0 ∧ t ≠ 1 ∧ t ≠ 2 ∧ t ≠ 3 ∧ t ≠ 4) ∧
      (∀ t : Tx, t.String = "unknown" ↔ 4 < t.Type_) := by
  have key : ∀ n : Nat,
      (match n with
        | 0 => "LegacyTxType"
        | 1 => "AccessListTxType"
        | 2 => "DynamicFeeTxType"
        | 3 => "BlobTxType"
        | 4 => "SetCodeTxType"
        | _ => "unknown") = TransactionType.String (Int.ofNat n) := by
    intro n
    rcases n with _ | _ | _ | _ | _ | n
    · decide
    · decide
    · decide
    · decide
    · decide
    · have h0 : ¬ (Int.ofNat (n + 5) = LegacyTxType) := by
        simp only [LegacyTxType, Int.ofNat_eq_coe]; omega
      have h1 : ¬ (Int.ofNat (n + 5) = AccessListTxType) := by
        simp only [AccessListTxType, Int.ofNat_eq_coe]; omega
      have h2 : ¬ (Int.ofNat (n + 5) = DynamicFeeTxType) := by
        simp only [DynamicFeeTxType, Int.ofNat_eq_coe]; omega
      have h3 : ¬ (Int.ofNat (n + 5) = BlobTxType) := by
        simp only [BlobTxType, Int.ofNat_eq_coe]; omega
      have h4 : ¬ (Int.ofNat (n + 5) = SetCodeTxType) := by
        simp only [SetCodeTxType, Int.ofNat_eq_coe]; omega
      simp only [TransactionType.String, h0, h1, h2, h3, h4, if_false]
  refine ⟨fun t => key t.Type_, by decide, by decide, ?_, ?_⟩
  · intro t
    unfold TransactionType.String LegacyTxType AccessListTxType DynamicFeeTxType BlobTxType
      SetCodeTxType
    constructor
    · intro h
      refine ⟨?_, ?_, ?_, ?_, ?_⟩ <;> intro ht <;> subst ht <;> revert h <;> decide
    · rintro ⟨h0, h1, h2, h3, h4⟩
      simp only [h0, h1, h2, h3, h4, if_false]
  · intro t
    unfold Tx.String
    rcases ht : t.Type_ with _ | _ | _ | _ | _ | n
    · decide
    · decide
    · decide
    · decide
    · decide
    · simp

end model

end TxpoolViz
